import Mathlib

/-!
Verification of the Santa workshop scheduling core
(`solver_engine.py`, `solution_manager.py`, `family.py`, `workshop.py`).

The Pyomo model is shallowly embedded: a valuation of the binary decision
variables is a function `x : Nat × Int → Bool` (indexed by (family id, day)
pairs; only the pairs in `valid_assignments` are ever referenced by the
constraints) and `z : Int → Bool` for the day-open indicators.  The
constraint generators (`one_day_rule`, `min_opening_rule`,
`max_opening_rule`) become predicates on such valuations, and the objective
(`objective_rule`) becomes a `Nat`-valued function.  The orchestrator's
mutable dictionaries (`self.families`, `self.days`) become association
lists with unique keys; a Python `KeyError` is modelled by `Option.none`.
-/

namespace Santa

/-- Family entity (`family.py`): identifier, member count, ordered list of
preferred days, and the mutable assigned-day field, `-1` meaning
unassigned. -/
structure Family where
  id : Nat
  n_members : Nat
  preferences : List Int
  assigned_day : Int := -1
  deriving DecidableEq

/-- `Family.assign_to` (`family.py`): set the assigned day. -/
def Family.assign_to (f : Family) (day : Int) : Family :=
  { f with assigned_day := day }

/-- Workshop-day entity (`workshop.py`): identifier, list of assigned
families, running occupancy total. -/
structure WorkshopDay where
  day_id : Int
  assigned_families : List Family := []
  current_occupancy : Nat := 0
  deriving DecidableEq

/-- `WorkshopDay.MAX_CAPACITY` (`workshop.py`). -/
def WorkshopDay.MAX_CAPACITY : Nat := 300

/-- `WorkshopDay.MIN_CAPACITY` (`workshop.py`). -/
def WorkshopDay.MIN_CAPACITY : Nat := 100

/-- `WorkshopDay.add_family` (`workshop.py`): append the family and add its
member count to the occupancy.  Nothing here resets previous state. -/
def WorkshopDay.add_family (w : WorkshopDay) (f : Family) : WorkshopDay :=
  { w with assigned_families := w.assigned_families ++ [f],
           current_occupancy := w.current_occupancy + f.n_members }

/-- Decidability of a propositional if-then-else, so that the constraint
predicates below can be evaluated on concrete inputs. -/
instance propIteDecidable (c t e : Prop) [dc : Decidable c] [dt : Decidable t]
    [de : Decidable e] : Decidable (if c then t else e) :=
  if h : c then by rw [if_pos h]; exact dt else by rw [if_neg h]; exact de

/-- Numeric value of a binary variable. -/
def boolVal (b : Bool) : Nat := if b then 1 else 0

/-- `valid_assignments` (`solver_engine.py`, `SantaSolver.solve`): the index
set of the sparse decision variables — one (family id, day) pair for each
day in each family's preference list. -/
def valid_assignments (families : List Family) : List (Nat × Int) :=
  families.flatMap (fun f => f.preferences.map (fun day => (f.id, day)))

/-- The index set of the day-open indicator variables `model.z`
(`solver_engine.py`): one per member of `days_range` (`model.Days`). -/
def day_open_vars (days_range : List Int) : List Int :=
  days_range

/-- `day_demand_map[d]` (`solver_engine.py`): the families that list day `d`
in their preferences, in family order, with the multiplicity with which `d`
occurs in each preference list (the Python loop appends `f` once per
occurrence of `d` in `f.preferences`). -/
def day_demand (families : List Family) (d : Int) : List Family :=
  families.flatMap (fun f => (f.preferences.filter (fun p => p == d)).map (fun _ => f))

/-- The occupancy expression `sum(m.x[f.id, d] * f.n_members for f in
day_demand_map[d])` used in `min_opening_rule` and `max_opening_rule`. -/
def occupancy_expr (families : List Family) (x : Nat × Int → Bool) (d : Int) : Nat :=
  ((day_demand families d).map (fun f => boolVal (x (f.id, d)) * f.n_members)).sum

/-- `min_opening_rule` (`solver_engine.py`): if no family requests day `d`
the constraint is `0 >= 100 * z[d]` (forcing `z[d] = 0`); otherwise the
occupancy must be at least `100 * z[d]`. -/
def min_opening_rule (families : List Family) (x : Nat × Int → Bool)
    (z : Int → Bool) (d : Int) : Prop :=
  if (day_demand families d).isEmpty then
    0 ≥ 100 * boolVal (z d)
  else
    occupancy_expr families x d ≥ 100 * boolVal (z d)

/-- `max_opening_rule` (`solver_engine.py`): skipped (`Constraint.Skip`,
i.e. trivially true) when no family requests day `d`; otherwise occupancy
must be at most `300 * z[d]`. -/
def max_opening_rule (families : List Family) (x : Nat × Int → Bool)
    (z : Int → Bool) (d : Int) : Prop :=
  if (day_demand families d).isEmpty then
    True
  else
    occupancy_expr families x d ≤ 300 * boolVal (z d)

/-- Decidability of the `min_opening_rule` constraint on concrete inputs. -/
instance minOpeningRuleDecidable (families : List Family) (x : Nat × Int → Bool)
    (z : Int → Bool) (d : Int) : Decidable (min_opening_rule families x z d) := by
  unfold min_opening_rule
  exact inferInstance

/-- Decidability of the `max_opening_rule` constraint on concrete inputs. -/
instance maxOpeningRuleDecidable (families : List Family) (x : Nat × Int → Bool)
    (z : Int → Bool) (d : Int) : Decidable (max_opening_rule families x z d) := by
  unfold max_opening_rule
  exact inferInstance

/-- `one_day_rule` (`solver_engine.py`): the constraint generated for a
family id — the sum of that family's decision variables over its own
preference list is at most 1.  The Python code recovers the family object
with `next((f for f in families if f.id == fam_id), None)`; the `none`
branch is unreachable because constraint ids come from `model.Families`. -/
def one_day_rule (families : List Family) (x : Nat × Int → Bool) (fam_id : Nat) : Prop :=
  match families.find? (fun f => f.id == fam_id) with
  | some current_fam =>
      (current_fam.preferences.map (fun d => boolVal (x (fam_id, d)))).sum ≤ 1
  | none => True

/-- Decidability of the `one_day_rule` constraint on concrete inputs. -/
instance oneDayRuleDecidable (families : List Family) (x : Nat × Int → Bool)
    (fam_id : Nat) : Decidable (one_day_rule families x fam_id) := by
  unfold one_day_rule
  cases families.find? (fun f => f.id == fam_id)
  · exact inferInstance
  · exact inferInstance

/-- `SantaSolver.HAPPINESS_POINTS` (`solver_engine.py`): score per
preference rank.  The Python dict has exactly the keys 0–9 and the
objective only ever looks up ranks produced by enumerating a preference
list; ranks outside 0–9 are mapped to 0 here. -/
def HAPPINESS_POINTS : Nat → Nat
  | 0 => 100
  | 1 => 90
  | 2 => 85
  | 3 => 80
  | 4 => 75
  | 5 => 70
  | 6 => 60
  | 7 => 50
  | 8 => 40
  | 9 => 30
  | _ => 0

/-- One family's contribution to `objective_rule` (`solver_engine.py`):
`sum over enumerate(f.preferences)` of `x[f.id, day] * HAPPINESS_POINTS[rank]`. -/
def family_happiness (x : Nat × Int → Bool) (f : Family) : Nat :=
  (f.preferences.enum.map (fun rd => boolVal (x (f.id, rd.2)) * HAPPINESS_POINTS rd.1)).sum

/-- `objective_rule` (`solver_engine.py`): total happiness, summed over all
families. -/
def objective_rule (families : List Family) (x : Nat × Int → Bool) : Nat :=
  (families.map (family_happiness x)).sum

/-- Python-dict insertion `d[k] = v` on an association list with unique
keys: overwrite in place if the key exists, otherwise append at the end. -/
def dict_insert (l : List (Nat × Int)) (k : Nat) (v : Int) : List (Nat × Int) :=
  match l with
  | [] => [(k, v)]
  | (k', v') :: rest =>
      if k' = k then (k', v) :: rest else (k', v') :: dict_insert rest k v

/-- `SantaSolver.get_raw_assignments` (`solver_engine.py`): iterate the
`model.Assignments` index set in order and record `assignments[fam_id] = day`
for every pair whose solved variable value exceeds 0.5.  Solved values are
modelled as rationals. -/
def get_raw_assignments (assignment_pairs : List (Nat × Int))
    (xval : Nat × Int → ℚ) : List (Nat × Int) :=
  assignment_pairs.foldl
    (fun acc p => if xval p > (1 : ℚ) / 2 then dict_insert acc p.1 p.2 else acc) []

/-- The orchestrator's entity repositories (`solution_manager.py`):
`self.families : Dict[id, Family]` and `self.days : Dict[int, WorkshopDay]`,
as association lists in insertion order. -/
structure ManagerState where
  families : List (Nat × Family)
  days : List (Int × WorkshopDay)
  deriving DecidableEq

/-- Dictionary lookup on an association list (first matching key). -/
def findAssoc {α β : Type} [DecidableEq α] (l : List (α × β)) (k : α) : Option β :=
  (l.find? (fun p => p.1 = k)).map (fun p => p.2)

/-- In-place mutation of the value stored under a key (Python mutates the
object held in the dict; keys and order never change). -/
def updAssoc {α β : Type} [DecidableEq α] (k : α) (g : β → β) :
    List (α × β) → List (α × β)
  | [] => []
  | (k', v) :: rest =>
      if k' = k then (k', g v) :: rest else (k', v) :: updAssoc k g rest

/-- The reset loop at the top of `SolutionManager._apply_results`
(`solution_manager.py`): set every family's assigned day back to `-1`. -/
def famErase (p : Nat × Family) : Nat × Family :=
  (p.1, { p.2 with assigned_day := -1 })

/-- One iteration of the application loop of
`SolutionManager._apply_results`: if `fam_id` is not a key of
`self.families` the pair is skipped; otherwise the family is assigned to
`day`, registered with `self.days[day]` (a missing day key would raise
`KeyError` in Python, modelled as `none`), and the assigned counter is
incremented. -/
def apply_pair (st : ManagerState) (cnt : Nat) (fam_id : Nat) (day : Int) :
    Option (ManagerState × Nat) :=
  match findAssoc st.families fam_id with
  | none => some (st, cnt)
  | some fam =>
      match findAssoc st.days day with
      | none => none
      | some _ =>
          some ({ families := updAssoc fam_id (fun f => f.assign_to day) st.families,
                  days := updAssoc day (fun w => w.add_family (fam.assign_to day)) st.days },
                cnt + 1)

/-- The application loop of `SolutionManager._apply_results` over the raw
assignment pairs, threading the state and the assigned counter. -/
def apply_pairs (st : ManagerState) (cnt : Nat) :
    List (Nat × Int) → Option (ManagerState × Nat)
  | [] => some (st, cnt)
  | (fam_id, day) :: rest =>
      match apply_pair st cnt fam_id day with
      | none => none
      | some (st', cnt') => apply_pairs st' cnt' rest

/-- The reset phase of `SolutionManager._apply_results`: every family's
assigned day is set to `-1`; the days dictionary is untouched. -/
def reset_families (st : ManagerState) : ManagerState :=
  { st with families := st.families.map famErase }

/-- `SolutionManager._apply_results` (`solution_manager.py`): reset all
family assignments, then apply the raw assignment pairs in order, returning
the new state and the number of families assigned. -/
def apply_results (st : ManagerState) (raw : List (Nat × Int)) :
    Option (ManagerState × Nat) :=
  apply_pairs (reset_families st) 0 raw

/-- `SolutionManager.solve` (`solution_manager.py`), after the solver
engine returned verdict `success`: on success the results are applied and
success is reported; on failure the state is untouched and failure is
reported (second component `false`), with no exception. -/
def manager_solve (st : ManagerState) (success : Bool) (raw : List (Nat × Int)) :
    Option (ManagerState × Bool) :=
  if success then (apply_results st raw).map (fun p => (p.1, true)) else some (st, false)

/-- Pyomo termination conditions relevant to `SantaSolver.solve`
(`solver_engine.py`). -/
inductive TerminationCondition where
  | optimal
  | feasible
  | maxTimeLimit
  | infeasible
  | unbounded
  | solverError
  | other
  deriving DecidableEq

/-- The verdict of `SantaSolver.solve` (`solver_engine.py`), execution
section: an exception from the optimizer (modelled as `Except.error`) is
caught and reported as `false`; otherwise the result is
`status in [optimal, feasible, maxTimeLimit]`. -/
def santa_solve_verdict (r : Except Unit TerminationCondition) : Bool :=
  match r with
  | Except.error _ => false
  | Except.ok s =>
      decide (s = TerminationCondition.optimal ∨ s = TerminationCondition.feasible ∨
        s = TerminationCondition.maxTimeLimit)

/-- Modelled from the claims' wording: a day's occupancy as "the sum of
`n_members` over families whose `x` variable for that day equals 1" — a
family has an `x` variable for day `d` exactly when `d` is in its
preference list. -/
def spec_day_occupancy (families : List Family) (x : Nat × Int → Bool) (d : Int) : Nat :=
  ((families.filter (fun f => decide (d ∈ f.preferences) && x (f.id, d))).map
    (fun f => f.n_members)).sum

/-- Modelled from the spec's wording of the objective: the sum over every
family and every rank 0–9 of the decision variable for the rank-th
preference times the score table. -/
def spec_objective (families : List Family) (x : Nat × Int → Bool) : Nat :=
  (families.map (fun f =>
    ((List.range 10).map
      (fun rank => boolVal (x (f.id, f.preferences.getD rank 0)) * HAPPINESS_POINTS rank)).sum)).sum

/-- Modelled from the amended extractor claim: the last day among the
assignment pairs carrying family id `k` whose solved value exceeds 0.5
(later pairs take precedence), if any. -/
def last_selected (xval : Nat × Int → ℚ) (k : Nat) :
    List (Nat × Int) → Option Int
  | [] => none
  | p :: rest =>
      match last_selected xval k rest with
      | some d => some d
      | none => if p.1 = k ∧ xval p > (1 : ℚ) / 2 then some p.2 else none

lemma day_demand_cons (f : Family) (fs : List Family) (d : Int) :
    day_demand (f :: fs) d
      = ((f.preferences.filter (fun p => p == d)).map (fun _ => f)) ++ day_demand fs d :=
  rfl

lemma occupancy_expr_cons (f : Family) (fs : List Family) (x : Nat × Int → Bool) (d : Int) :
    occupancy_expr (f :: fs) x d
      = ((f.preferences.filter (fun p => p == d)).map
          (fun _ => boolVal (x (f.id, d)) * f.n_members)).sum + occupancy_expr fs x d := by
  simp [occupancy_expr, day_demand_cons, List.map_append, List.sum_append, List.map_map,
    Function.comp_def]

lemma filter_eq_length (d : Int) (l : List Int) (hl : l.Nodup) :
    (l.filter (fun p => p == d)).length = if d ∈ l then 1 else 0 := by
  induction l with
  | nil => simp
  | cons a t ih =>
    rcases List.nodup_cons.mp hl with ⟨ha, ht⟩
    by_cases had : a = d
    · have hdt : d ∉ t := by rw [← had]; exact ha
      simp [List.filter_cons, had, hdt, ih ht]
    · have hda : ¬d = a := fun h => had h.symm
      simp [List.filter_cons, had, hda, ih ht]

lemma filter_const_sum (d : Int) (w : Nat) (l : List Int) (hl : l.Nodup) :
    ((l.filter (fun p => p == d)).map (fun _ => w)).sum = if d ∈ l then w else 0 := by
  by_cases hd : d ∈ l <;> simp [filter_eq_length d l hl, hd]

lemma occupancy_expr_eq_spec (families : List Family) (x : Nat × Int → Bool) (d : Int)
    (h : ∀ f ∈ families, f.preferences.Nodup) :
    occupancy_expr families x d = spec_day_occupancy families x d := by
  induction families with
  | nil => rfl
  | cons f fs ih =>
    have hf := h f (List.mem_cons_self f fs)
    have hfs : ∀ g ∈ fs, g.preferences.Nodup := fun g hg => h g (List.mem_cons_of_mem f hg)
    rw [occupancy_expr_cons, filter_const_sum d _ _ hf, ih hfs]
    by_cases hd : d ∈ f.preferences
    · cases hx : x (f.id, d) with
      | true => simp [spec_day_occupancy, List.filter_cons, hd, hx, boolVal]
      | false => simp [spec_day_occupancy, List.filter_cons, hd, hx, boolVal]
    · simp [spec_day_occupancy, List.filter_cons, hd]

lemma occupancy_expr_of_no_demand (families : List Family) (x : Nat × Int → Bool) (d : Int)
    (h : day_demand families d = []) :
    occupancy_expr families x d = 0 := by
  simp [occupancy_expr, h]

/-- C1: for every workshop day and every valuation of the binary variables
satisfying the generated `MinOpen` and `MaxOpen` constraints, the day's
occupancy — the sum of `n_members` over families whose `x` variable for
that day equals 1 — is either exactly 0 or within [100, 300] inclusive.
The preference lists are duplicate-free, as the data model requires. -/
theorem c1_semicontinuous_occupancy (families : List Family) (x : Nat × Int → Bool)
    (z : Int → Bool) (d : Int)
    (hnd : ∀ f ∈ families, f.preferences.Nodup)
    (hmin : min_opening_rule families x z d)
    (hmax : max_opening_rule families x z d) :
    spec_day_occupancy families x d = 0 ∨
      (100 ≤ spec_day_occupancy families x d ∧ spec_day_occupancy families x d ≤ 300) := by
  rw [← occupancy_expr_eq_spec families x d hnd]
  unfold min_opening_rule at hmin
  unfold max_opening_rule at hmax
  by_cases he : (day_demand families d).isEmpty = true
  · left
    exact occupancy_expr_of_no_demand families x d (List.isEmpty_iff.mp he)
  · rw [if_neg he] at hmin hmax
    cases hz : z d with
    | false =>
      left
      rw [hz] at hmax
      simp [boolVal] at hmax
      omega
    | true =>
      right
      rw [hz] at hmin hmax
      simp [boolVal] at hmin hmax
      omega

/-- Witness for C1 at a concrete feasible valuation: two families of 150
members both assigned to day 5, which is open with occupancy 300. -/
theorem c1_semicontinuous_occupancy_witness :
    (∀ f ∈ [Family.mk 0 150 [5] (-1), Family.mk 1 150 [5] (-1)], f.preferences.Nodup)
      ∧ min_opening_rule [Family.mk 0 150 [5] (-1), Family.mk 1 150 [5] (-1)]
          (fun _ => true) (fun _ => true) 5
      ∧ max_opening_rule [Family.mk 0 150 [5] (-1), Family.mk 1 150 [5] (-1)]
          (fun _ => true) (fun _ => true) 5
      ∧ (spec_day_occupancy [Family.mk 0 150 [5] (-1), Family.mk 1 150 [5] (-1)]
            (fun _ => true) 5 = 0
          ∨ (100 ≤ spec_day_occupancy [Family.mk 0 150 [5] (-1), Family.mk 1 150 [5] (-1)]
                (fun _ => true) 5
              ∧ spec_day_occupancy [Family.mk 0 150 [5] (-1), Family.mk 1 150 [5] (-1)]
                  (fun _ => true) 5 ≤ 300)) :=
  ⟨by decide, by decide, by decide,
    c1_semicontinuous_occupancy [Family.mk 0 150 [5] (-1), Family.mk 1 150 [5] (-1)]
      (fun _ => true) (fun _ => true) 5 (by decide) (by decide) (by decide)⟩

lemma sum_map_boolVal (p : Int → Bool) (l : List Int) :
    (l.map (fun d => boolVal (p d))).sum = l.countP p := by
  induction l with
  | nil => rfl
  | cons a t ih =>
    rw [List.map_cons, List.sum_cons, ih, List.countP_cons]
    cases h : p a <;> simp [boolVal, h, Nat.add_comm]

/-- C2: the constraint generated by `one_day_rule` for a family bounds the
sum of that family's decision variables over its own preference list by 1,
so in a feasible solution the family is assigned to at most one day; and
the all-zero assignment also satisfies the constraint, so a family may be
assigned to no day at all. -/
theorem c2_one_day_rule_at_most_one (families : List Family) (x : Nat × Int → Bool)
    (f : Family)
    (hf : families.find? (fun g => g.id == f.id) = some f)
    (hc : one_day_rule families x f.id) :
    f.preferences.countP (fun d => x (f.id, d)) ≤ 1
      ∧ one_day_rule families (fun _ => false) f.id := by
  constructor
  · unfold one_day_rule at hc
    rw [hf] at hc
    have hc' : (f.preferences.map (fun d => boolVal (x (f.id, d)))).sum ≤ 1 := hc
    rwa [sum_map_boolVal] at hc'
  · unfold one_day_rule
    rw [hf]
    simp [boolVal]

/-- Witness for C2: one family with two preferred days, assigned to its
first preference. -/
theorem c2_one_day_rule_at_most_one_witness :
    [Family.mk 0 4 [1, 2] (-1)].find? (fun g => g.id == 0) = some (Family.mk 0 4 [1, 2] (-1))
      ∧ one_day_rule [Family.mk 0 4 [1, 2] (-1)] (fun p => p.2 == 1) 0
      ∧ ((Family.mk 0 4 [1, 2] (-1)).preferences.countP (fun d => (fun p : Nat × Int => p.2 == 1) (0, d)) ≤ 1
          ∧ one_day_rule [Family.mk 0 4 [1, 2] (-1)] (fun _ => false) 0) :=
  ⟨by decide, by decide,
    c2_one_day_rule_at_most_one [Family.mk 0 4 [1, 2] (-1)] (fun p => p.2 == 1)
      (Family.mk 0 4 [1, 2] (-1)) (by decide) (by decide)⟩

lemma day_demand_eq_nil (families : List Family) (d : Int)
    (h : ∀ f ∈ families, d ∉ f.preferences) :
    day_demand families d = [] := by
  induction families with
  | nil => rfl
  | cons f fs ih =>
    rw [day_demand_cons]
    have h1 : f.preferences.filter (fun p => p == d) = [] := by
      rw [List.filter_eq_nil_iff]
      intro a ha
      simp only [beq_iff_eq]
      intro had
      exact h f (List.mem_cons_self f fs) (had ▸ ha)
    rw [h1, List.map_nil, List.nil_append]
    exact ih (fun g hg => h g (List.mem_cons_of_mem f hg))

/-- C3: a day that appears in no family's preference list gets the
constraint `0 >= 100 * z[d]` from `min_opening_rule`, which forces the
day-open indicator to 0; and the day's occupancy is 0 in every solution. -/
theorem c3_no_demand_day_closed (families : List Family) (x : Nat × Int → Bool)
    (z : Int → Bool) (d : Int)
    (h : ∀ f ∈ families, d ∉ f.preferences)
    (hmin : min_opening_rule families x z d) :
    z d = false ∧ spec_day_occupancy families x d = 0 := by
  have hdd := day_demand_eq_nil families d h
  constructor
  · unfold min_opening_rule at hmin
    rw [hdd] at hmin
    simp only [List.isEmpty_nil, if_true] at hmin
    cases hz : z d with
    | false => rfl
    | true =>
      rw [hz] at hmin
      simp [boolVal] at hmin
  · unfold spec_day_occupancy
    have hfil : families.filter (fun f => decide (d ∈ f.preferences) && x (f.id, d)) = [] := by
      rw [List.filter_eq_nil_iff]
      intro f hf
      simp [h f hf]
    rw [hfil]
    rfl

/-- Witness for C3: one family that does not list day 3; the indicator for
day 3 is closed and its occupancy is 0. -/
theorem c3_no_demand_day_closed_witness :
    (∀ f ∈ [Family.mk 0 4 [1, 2] (-1)], (3 : Int) ∉ f.preferences)
      ∧ min_opening_rule [Family.mk 0 4 [1, 2] (-1)] (fun _ => true) (fun _ => false) 3
      ∧ ((fun _ : Int => false) 3 = false
          ∧ spec_day_occupancy [Family.mk 0 4 [1, 2] (-1)] (fun _ => true) 3 = 0) :=
  ⟨by decide, by decide,
    c3_no_demand_day_closed [Family.mk 0 4 [1, 2] (-1)] (fun _ => true) (fun _ => false) 3
      (by decide) (by decide)⟩

lemma enumFrom_score_sum (g : Nat → Int → Nat) :
    ∀ (l : List Int) (n : Nat),
      ((List.enumFrom n l).map (fun rd => g rd.1 rd.2)).sum
        = ((List.range l.length).map (fun r => g (n + r) (l.getD r 0))).sum := by
  intro l
  induction l with
  | nil => intro n; rfl
  | cons a t ih =>
    intro n
    rw [List.enumFrom_cons, List.map_cons, List.sum_cons, ih (n + 1), List.length_cons,
      List.range_succ_eq_map, List.map_cons, List.sum_cons, List.map_map]
    congr 1
    apply congrArg
    apply List.map_congr_left
    intro r _
    show g (n + 1 + r) (t.getD r 0) = g (n + (r + 1)) ((a :: t).getD (r + 1) 0)
    rw [List.getD_cons_succ, show n + 1 + r = n + (r + 1) by omega]

lemma family_happiness_eq_spec_term (x : Nat × Int → Bool) (f : Family)
    (hlen : f.preferences.length = 10) :
    family_happiness x f
      = ((List.range 10).map
          (fun rank => boolVal (x (f.id, f.preferences.getD rank 0)) * HAPPINESS_POINTS rank)).sum := by
  unfold family_happiness
  have h := enumFrom_score_sum (fun r day => boolVal (x (f.id, day)) * HAPPINESS_POINTS r)
    f.preferences 0
  rw [hlen] at h
  simpa using h

lemma objective_rule_eq_spec (families : List Family) (x : Nat × Int → Bool)
    (hlen : ∀ f ∈ families, f.preferences.length = 10) :
    objective_rule families x = spec_objective families x := by
  unfold objective_rule spec_objective
  congr 1
  apply List.map_congr_left
  intro f hf
  exact family_happiness_eq_spec_term x f (hlen f hf)

lemma snd_mem_of_mem_enumFrom :
    ∀ (l : List Int) (n : Nat) (rd : Nat × Int), rd ∈ List.enumFrom n l → rd.2 ∈ l := by
  intro l
  induction l with
  | nil =>
    intro n rd h
    simp at h
  | cons a t ih =>
    intro n rd h
    rw [List.enumFrom_cons] at h
    rcases List.mem_cons.mp h with h1 | h2
    · rw [h1]
      exact List.mem_cons_self a t
    · exact List.mem_cons_of_mem a (ih (n + 1) rd h2)

lemma family_happiness_zero (x : Nat × Int → Bool) (f : Family)
    (h : ∀ d ∈ f.preferences, x (f.id, d) = false) :
    family_happiness x f = 0 := by
  unfold family_happiness
  apply List.sum_eq_zero
  intro v hv
  rcases List.mem_map.mp hv with ⟨rd, hrd, hveq⟩
  have hmem : rd.2 ∈ f.preferences := snd_mem_of_mem_enumFrom f.preferences 0 rd hrd
  rw [← hveq, h rd.2 hmem]
  simp [boolVal]

/-- C4: with 10-day preference lists, the objective equals the sum over
every family and every rank 0–9 of the decision variable for the rank-th
preference times the score table (0→100, 1→90, …, 9→30); the table is
non-increasing in rank; and a family none of whose decision variables is 1
contributes exactly 0 to the objective. -/
theorem c4_objective_spec (families : List Family) (x : Nat × Int → Bool) (f : Family)
    (hlen : ∀ g ∈ families, g.preferences.length = 10)
    (hzero : ∀ d ∈ f.preferences, x (f.id, d) = false) :
    objective_rule families x = spec_objective families x
      ∧ (∀ r s : Nat, r ≤ s → s ≤ 9 → HAPPINESS_POINTS s ≤ HAPPINESS_POINTS r)
      ∧ family_happiness x f = 0 := by
  refine ⟨objective_rule_eq_spec families x hlen, ?_, family_happiness_zero x f hzero⟩
  intro r s h1 h2
  interval_cases s <;> interval_cases r <;> decide

/-- Witness for C4: one family with the preference list 1..10 and no
variable set; its contribution and the objective are 0. -/
theorem c4_objective_spec_witness :
    (∀ g ∈ [Family.mk 0 4 [1, 2, 3, 4, 5, 6, 7, 8, 9, 10] (-1)], g.preferences.length = 10)
      ∧ (∀ d ∈ (Family.mk 0 4 [1, 2, 3, 4, 5, 6, 7, 8, 9, 10] (-1)).preferences,
          (fun _ : Nat × Int => false) (0, d) = false)
      ∧ (objective_rule [Family.mk 0 4 [1, 2, 3, 4, 5, 6, 7, 8, 9, 10] (-1)] (fun _ => false)
            = spec_objective [Family.mk 0 4 [1, 2, 3, 4, 5, 6, 7, 8, 9, 10] (-1)] (fun _ => false)
          ∧ (∀ r s : Nat, r ≤ s → s ≤ 9 → HAPPINESS_POINTS s ≤ HAPPINESS_POINTS r)
          ∧ family_happiness (fun _ => false) (Family.mk 0 4 [1, 2, 3, 4, 5, 6, 7, 8, 9, 10] (-1)) = 0) :=
  ⟨by decide, by decide,
    c4_objective_spec [Family.mk 0 4 [1, 2, 3, 4, 5, 6, 7, 8, 9, 10] (-1)] (fun _ => false)
      (Family.mk 0 4 [1, 2, 3, 4, 5, 6, 7, 8, 9, 10] (-1)) (by decide) (by decide)⟩

/-- C5: the decision-variable index set contains exactly the (family id,
day) pairs where the day appears in that family's preference list, and the
day-open indicator index set contains exactly the days of `days_range`. -/
theorem c5_variable_index_sets (families : List Family) (days_range : List Int)
    (fid : Nat) (d : Int) :
    ((fid, d) ∈ valid_assignments families
        ↔ ∃ f, f ∈ families ∧ f.id = fid ∧ d ∈ f.preferences)
      ∧ (d ∈ day_open_vars days_range ↔ d ∈ days_range) := by
  constructor
  · unfold valid_assignments
    rw [List.mem_flatMap]
    constructor
    · rintro ⟨f, hf, hmem⟩
      rcases List.mem_map.mp hmem with ⟨day, hday, heq⟩
      injection heq with hid hd
      exact ⟨f, hf, hid, hd ▸ hday⟩
    · rintro ⟨f, hf, hid, hd⟩
      exact ⟨f, hf, List.mem_map.mpr ⟨d, hd, by rw [hid]⟩⟩
  · exact Iff.rfl

lemma findAssoc_cons {α β : Type} [DecidableEq α] (k' : α) (v' : β) (rest : List (α × β))
    (k : α) :
    findAssoc ((k', v') :: rest) k = if k' = k then some v' else findAssoc rest k := by
  by_cases h : k' = k
  · simp [findAssoc, List.find?_cons_of_pos, h]
  · simp only [findAssoc, if_neg h]
    rw [List.find?_cons_of_neg]
    simp [h]

lemma findAssoc_dict_insert_self (l : List (Nat × Int)) (k : Nat) (v : Int) :
    findAssoc (dict_insert l k v) k = some v := by
  induction l with
  | nil => simp [dict_insert, findAssoc]
  | cons p rest ih =>
    rcases p with ⟨k', v'⟩
    by_cases h : k' = k
    · rw [dict_insert, if_pos h, findAssoc_cons, if_pos h]
    · rw [dict_insert, if_neg h, findAssoc_cons, if_neg h]
      exact ih

lemma findAssoc_dict_insert_ne (l : List (Nat × Int)) (k : Nat) (v : Int) (k' : Nat)
    (h : k ≠ k') :
    findAssoc (dict_insert l k v) k' = findAssoc l k' := by
  induction l with
  | nil => simp [dict_insert, findAssoc, h]
  | cons p rest ih =>
    rcases p with ⟨k1, v1⟩
    by_cases h1 : k1 = k
    · rw [dict_insert, if_pos h1, findAssoc_cons, findAssoc_cons]
      subst h1
      rw [if_neg h, if_neg h]
    · rw [dict_insert, if_neg h1, findAssoc_cons, findAssoc_cons, ih]

lemma get_raw_lookup_aux (xval : Nat × Int → ℚ) (k : Nat) :
    ∀ (l : List (Nat × Int)) (acc : List (Nat × Int)),
      findAssoc
          (l.foldl (fun acc p => if xval p > (1 : ℚ) / 2 then dict_insert acc p.1 p.2 else acc) acc)
          k
        = match last_selected xval k l with
          | some day => some day
          | none => findAssoc acc k := by
  intro l
  induction l with
  | nil => intro acc; rfl
  | cons p rest ih =>
    intro acc
    rw [List.foldl_cons, ih]
    cases hls : last_selected xval k rest with
    | some day => simp [last_selected, hls]
    | none =>
      simp only [last_selected, hls]
      by_cases hsel : xval p > (1 : ℚ) / 2
      · by_cases hk : p.1 = k
        · rw [if_pos hsel, if_pos ⟨hk, hsel⟩, ← hk, findAssoc_dict_insert_self]
        · rw [if_pos hsel, if_neg (fun hand => hk hand.1),
            findAssoc_dict_insert_ne _ _ _ _ hk]
      · rw [if_neg hsel, if_neg (fun hand => hsel hand.2)]

/-- C6 (amended): the extractor maps a family id to the day of the LAST
pair in the `model.Assignments` iteration order whose solved value exceeds
0.5; when several pairs are selected for the same family the earlier ones
are silently overwritten by the dictionary write — no validation and no
error. -/
theorem c6_extractor_last_wins (assignment_pairs : List (Nat × Int))
    (xval : Nat × Int → ℚ) (fid : Nat) :
    findAssoc (get_raw_assignments assignment_pairs xval) fid
      = last_selected xval fid assignment_pairs := by
  unfold get_raw_assignments
  rw [get_raw_lookup_aux]
  cases last_selected xval fid assignment_pairs <;> simp [findAssoc]

/-- Counterexample to C6 as stated: family 0 has two variables whose
solved value (1) exceeds 0.5, for days 3 and 7; `get_raw_assignments`
does not validate or raise — it silently returns the mapping
`{0: 7}`, picking the later pair. -/
theorem c6_extractor_counterexample :
    get_raw_assignments [(0, 3), (0, 7)] (fun _ => 1) = [(0, 7)] := by
  norm_num [get_raw_assignments, dict_insert, List.foldl]

/-- C7: when the solver verdict is rejected (`santa_solve_verdict` is
false, which covers INFEASIBLE and caught adapter errors), the
orchestrator leaves the whole entity state unchanged, reports failure, and
raises no exception. -/
theorem c7_rejected_verdict_unchanged (st : ManagerState) (raw : List (Nat × Int))
    (r : Except Unit TerminationCondition)
    (h : santa_solve_verdict r = false) :
    manager_solve st (santa_solve_verdict r) raw = some (st, false) := by
  rw [h]
  rfl

/-- Witness for C7 at the INFEASIBLE verdict and a concrete state. -/
theorem c7_rejected_verdict_unchanged_witness :
    santa_solve_verdict (Except.ok TerminationCondition.infeasible) = false
      ∧ manager_solve ⟨[(0, Family.mk 0 3 [1] (-1))], [(1, WorkshopDay.mk 1 [] 0)]⟩
          (santa_solve_verdict (Except.ok TerminationCondition.infeasible)) [(0, 1)]
        = some (⟨[(0, Family.mk 0 3 [1] (-1))], [(1, WorkshopDay.mk 1 [] 0)]⟩, false) :=
  ⟨by decide,
    c7_rejected_verdict_unchanged ⟨[(0, Family.mk 0 3 [1] (-1))], [(1, WorkshopDay.mk 1 [] 0)]⟩
      [(0, 1)] (Except.ok TerminationCondition.infeasible) (by decide)⟩

/-- C8: the solver verdict is accepted (true) exactly for the OPTIMAL,
FEASIBLE and time-limit termination conditions — an exception is never
accepted — and a caught exception yields the same verdict as INFEASIBLE. -/
theorem c8_accepted_verdicts :
    (∀ r : Except Unit TerminationCondition,
        santa_solve_verdict r = true
          ↔ (r = Except.ok TerminationCondition.optimal
              ∨ r = Except.ok TerminationCondition.feasible
              ∨ r = Except.ok TerminationCondition.maxTimeLimit))
      ∧ ∀ e : Unit,
          santa_solve_verdict (Except.error e)
            = santa_solve_verdict (Except.ok TerminationCondition.infeasible) := by
  constructor
  · intro r
    rcases r with e | s
    · cases e
      simp [santa_solve_verdict]
    · cases s <;> simp [santa_solve_verdict]
  · intro e
    cases e
    rfl

lemma map_fst_updAssoc {α β : Type} [DecidableEq α] (k : α) (g : β → β) :
    ∀ l : List (α × β), (updAssoc k g l).map Prod.fst = l.map Prod.fst := by
  intro l
  induction l with
  | nil => rfl
  | cons p rest ih =>
    rcases p with ⟨k', v⟩
    by_cases h : k' = k <;> simp [updAssoc, h, ih]

lemma findAssoc_isSome_congr {α β γ : Type} [DecidableEq α] :
    ∀ (l1 : List (α × β)) (l2 : List (α × γ)) (k : α),
      l1.map Prod.fst = l2.map Prod.fst →
      (findAssoc l1 k).isSome = (findAssoc l2 k).isSome := by
  intro l1
  induction l1 with
  | nil =>
    intro l2 k h
    rw [List.map_nil] at h
    rw [List.eq_nil_of_map_eq_nil h.symm]
    rfl
  | cons p rest ih =>
    intro l2 k h
    rcases l2 with _ | ⟨q, rest2⟩
    · simp at h
    · simp only [List.map_cons, List.cons.injEq] at h
      obtain ⟨hk, ht⟩ := h
      rw [findAssoc_cons p.1 p.2, findAssoc_cons q.1 q.2]
      by_cases hkk : p.1 = k
      · rw [if_pos hkk, if_pos (hk ▸ hkk)]
        rfl
      · rw [if_neg hkk, if_neg (hk ▸ hkk)]
        exact ih rest2 k ht

/-- Equivalence of two intermediate states of the application loop: same
families component, same assigned count, same day keys (the day values may
differ), and the loop fails on one exactly when it fails on the other. -/
def SameShape : Option (ManagerState × Nat) → Option (ManagerState × Nat) → Prop
  | some (sa, ca), some (sb, cb) =>
      sa.families = sb.families ∧ ca = cb ∧ sa.days.map Prod.fst = sb.days.map Prod.fst
  | none, none => True
  | _, _ => False

lemma apply_pairs_congr :
    ∀ (raw : List (Nat × Int)) (sa sb : ManagerState) (cnt : Nat),
      sa.families = sb.families →
      sa.days.map Prod.fst = sb.days.map Prod.fst →
      SameShape (apply_pairs sa cnt raw) (apply_pairs sb cnt raw) := by
  intro raw
  induction raw with
  | nil =>
    intro sa sb cnt h1 h2
    exact ⟨h1, rfl, h2⟩
  | cons pr rest ih =>
    intro sa sb cnt h1 h2
    rcases pr with ⟨fid, day⟩
    rw [apply_pairs, apply_pairs]
    unfold apply_pair
    rw [h1]
    cases hfind : findAssoc sb.families fid with
    | none => exact ih sa sb cnt h1 h2
    | some fam =>
      have hsome := findAssoc_isSome_congr sa.days sb.days day h2
      cases hda : findAssoc sa.days day with
      | none =>
        cases hdb : findAssoc sb.days day with
        | none => trivial
        | some wb =>
          rw [hda, hdb] at hsome
          simp at hsome
      | some wa =>
        cases hdb : findAssoc sb.days day with
        | none =>
          rw [hda, hdb] at hsome
          simp at hsome
        | some wb =>
          apply ih
          · simp [h1]
          · simp [map_fst_updAssoc, h2]

lemma map_famErase_updAssoc_assign (fid : Nat) (day : Int) :
    ∀ l : List (Nat × Family),
      (updAssoc fid (fun f => f.assign_to day) l).map famErase = l.map famErase := by
  intro l
  induction l with
  | nil => rfl
  | cons p rest ih =>
    rcases p with ⟨k, f⟩
    by_cases h : k = fid
    · rw [updAssoc, if_pos h]
      rfl
    · rw [updAssoc, if_neg h, List.map_cons, List.map_cons, ih]

lemma apply_pairs_preserves :
    ∀ (raw : List (Nat × Int)) (st : ManagerState) (cnt : Nat) (st' : ManagerState) (cnt' : Nat),
      apply_pairs st cnt raw = some (st', cnt') →
      st'.families.map famErase = st.families.map famErase
        ∧ st'.days.map Prod.fst = st.days.map Prod.fst := by
  intro raw
  induction raw with
  | nil =>
    intro st cnt st' cnt' h
    rw [apply_pairs] at h
    injection h with h'
    injection h' with h1 h2
    rw [← h1]
    exact ⟨rfl, rfl⟩
  | cons pr rest ih =>
    intro st cnt st' cnt' h
    rcases pr with ⟨fid, day⟩
    rw [apply_pairs] at h
    unfold apply_pair at h
    cases hf : findAssoc st.families fid with
    | none =>
      rw [hf] at h
      exact ih st cnt st' cnt' h
    | some fam =>
      rw [hf] at h
      cases hd : findAssoc st.days day with
      | none =>
        rw [hd] at h
        cases h
      | some w =>
        rw [hd] at h
        obtain ⟨e1, e2⟩ := ih _ _ _ _ h
        constructor
        · rw [e1]
          simp [map_famErase_updAssoc_assign]
        · rw [e2]
          simp [map_fst_updAssoc]

lemma famErase_famErase (p : Nat × Family) : famErase (famErase p) = famErase p :=
  rfl

lemma map_famErase_idem (l : List (Nat × Family)) :
    (l.map famErase).map famErase = l.map famErase := by
  rw [List.map_map]
  apply List.map_congr_left
  intro p _
  exact famErase_famErase p

/-- C9 (amended): the family component of the entity state is idempotent
under re-application — every family's assigned-day is reset to the
sentinel before results are applied, so applying the same raw map a second
time reproduces the same family assignments and the same assigned count.
(The day component is NOT reset; see the counterexample.) -/
theorem c9_family_state_idempotent (st st1 : ManagerState) (raw : List (Nat × Int)) (c1 : Nat)
    (h : apply_results st raw = some (st1, c1)) :
    ∃ st2, apply_results st1 raw = some (st2, c1) ∧ st2.families = st1.families := by
  unfold apply_results at h ⊢
  obtain ⟨hfam, hdays⟩ := apply_pairs_preserves raw (reset_families st) 0 st1 c1 h
  have hf : (reset_families st1).families = (reset_families st).families := by
    show st1.families.map famErase = st.families.map famErase
    have : (reset_families st).families.map famErase = st.families.map famErase :=
      map_famErase_idem st.families
    rw [hfam] at *
    exact this
  have hd : (reset_families st1).days.map Prod.fst = (reset_families st).days.map Prod.fst :=
    hdays
  have hcong := apply_pairs_congr raw (reset_families st1) (reset_families st) 0 hf hd
  rw [h] at hcong
  cases hres : apply_pairs (reset_families st1) 0 raw with
  | none =>
    rw [hres] at hcong
    exact absurd hcong (by simp [SameShape])
  | some p =>
    rcases p with ⟨st2, c2⟩
    rw [hres] at hcong
    obtain ⟨e1, e2, _⟩ := hcong
    exact ⟨st2, by rw [e2], e1⟩

/-- Witness for C9 (amended): one family, one day; applying twice yields
the same family assignments and count as applying once. -/
theorem c9_family_state_idempotent_witness :
    apply_results ⟨[(0, Family.mk 0 2 [1] (-1))], [(1, WorkshopDay.mk 1 [] 0)]⟩ [(0, 1)]
        = some (⟨[(0, Family.mk 0 2 [1] 1)],
            [(1, WorkshopDay.mk 1 [Family.mk 0 2 [1] 1] 2)]⟩, 1)
      ∧ ∃ st2,
          apply_results ⟨[(0, Family.mk 0 2 [1] 1)],
              [(1, WorkshopDay.mk 1 [Family.mk 0 2 [1] 1] 2)]⟩ [(0, 1)]
            = some (st2, 1)
          ∧ st2.families = [(0, Family.mk 0 2 [1] 1)] :=
  ⟨by decide,
    c9_family_state_idempotent ⟨[(0, Family.mk 0 2 [1] (-1))], [(1, WorkshopDay.mk 1 [] 0)]⟩
      ⟨[(0, Family.mk 0 2 [1] 1)], [(1, WorkshopDay.mk 1 [Family.mk 0 2 [1] 1] 2)]⟩
      [(0, 1)] 1 (by decide)⟩

/-- Counterexample to C9 as stated: the WorkshopDay component is NOT
reset.  Applying `{0: 1}` to a fresh state gives day 1 occupancy 2 with
one membership entry; re-applying the same results to that state leaves
day 1 at occupancy 4 with the family registered twice — leftover
assignment state from the first run remains in the entity model. -/
theorem c9_day_state_counterexample :
    apply_results ⟨[(0, Family.mk 0 2 [1] (-1))], [(1, WorkshopDay.mk 1 [] 0)]⟩ [(0, 1)]
        = some (⟨[(0, Family.mk 0 2 [1] 1)],
            [(1, WorkshopDay.mk 1 [Family.mk 0 2 [1] 1] 2)]⟩, 1)
      ∧ (apply_results ⟨[(0, Family.mk 0 2 [1] 1)],
            [(1, WorkshopDay.mk 1 [Family.mk 0 2 [1] 1] 2)]⟩ [(0, 1)]).map
          (fun p => (p.1.days.map (fun q => q.2.current_occupancy),
            p.1.days.map (fun q => q.2.assigned_families.length)))
        = some ([4], [2]) := by
  constructor
  · decide
  · decide

lemma map_fst_famErase (l : List (Nat × Family)) :
    (l.map famErase).map Prod.fst = l.map Prod.fst := by
  rw [List.map_map]
  apply List.map_congr_left
  intro p _
  rfl

lemma findAssoc_reset_none (st : ManagerState) (fid : Nat)
    (h : findAssoc st.families fid = none) :
    findAssoc (reset_families st).families fid = none := by
  have hk := findAssoc_isSome_congr (st.families.map famErase) st.families fid
    (map_fst_famErase st.families)
  rw [h] at hk
  cases hres : findAssoc (st.families.map famErase) fid with
  | none => exact hres
  | some v =>
    rw [hres] at hk
    simp at hk

/-- C10: a raw assignment pair whose family id is not a key of the
families repository is silently skipped by the application loop: the
entity state is unchanged by that pair, it is not counted as assigned, and
no error occurs. -/
theorem c10_unknown_family_skipped (st : ManagerState) (cnt : Nat) (fid : Nat) (d : Int)
    (rest : List (Nat × Int))
    (h : findAssoc st.families fid = none) :
    apply_pairs st cnt ((fid, d) :: rest) = apply_pairs st cnt rest
      ∧ apply_results st ((fid, d) :: rest) = apply_results st rest := by
  constructor
  · rw [apply_pairs]
    unfold apply_pair
    rw [h]
  · unfold apply_results
    rw [apply_pairs]
    unfold apply_pair
    rw [findAssoc_reset_none st fid h]

/-- Witness for C10: family id 0 is not in the repository (only id 1 is);
the pair (0, 5) is skipped entirely. -/
theorem c10_unknown_family_skipped_witness :
    findAssoc ([(1, Family.mk 1 3 [2] (-1))] : List (Nat × Family)) 0 = none
      ∧ (apply_pairs ⟨[(1, Family.mk 1 3 [2] (-1))], []⟩ 0 [(0, 5)]
            = apply_pairs ⟨[(1, Family.mk 1 3 [2] (-1))], []⟩ 0 []
          ∧ apply_results ⟨[(1, Family.mk 1 3 [2] (-1))], []⟩ [(0, 5)]
            = apply_results ⟨[(1, Family.mk 1 3 [2] (-1))], []⟩ []) :=
  ⟨by decide,
    c10_unknown_family_skipped ⟨[(1, Family.mk 1 3 [2] (-1))], []⟩ 0 0 5 [] (by decide)⟩

end Santa
